import Mathlib

/-!
Shallow embedding of the upscaling core of `src/image_manager/image_utils.py`
(functions `get_model_scale_factor`, `upscale_image`, `upscale_image_direct`,
`upscale_image_tiled`), together with theorems settling the frozen claims
about it.

Modelling conventions:
* A PIL image is a width, a height and a total pixel function; pixel values
  are RGB triples of naturals.  Only in-bounds pixels are ever relevant.
* A numpy float tensor of shape `[batch, channel, height, width]` is a record
  of its dimensions and a total data function into `ℚ` (exact arithmetic in
  place of IEEE floats; every quantity the claims mention is exact).
* The ONNX inference session is an oracle `Tensor4 → Option Tensor4`
  (`none` models a raised exception), and the environment records carry
  boolean oracles for the other failure points the code catches
  (model file missing, session load failure, numpy conversion failure).
* The progress callback is modelled by the list of values delivered to it,
  in order; the `cb` flag models whether a callback was supplied
  (`progress_callback` truthiness in the source).
-/

/-- RGB pixel: an ordered triple of channel values. -/
def Pixel : Type := ℕ × ℕ × ℕ

instance : DecidableEq Pixel := by unfold Pixel; infer_instance

/-- A PIL image: width, height, and a (total) pixel-lookup function. -/
structure PImage where
  width : ℕ
  height : ℕ
  pix : ℕ → ℕ → Pixel

/-- `Image.new('RGB', (w, h), col)`; with no colour argument PIL fills black. -/
def newImage (w h : ℕ) (col : Pixel) : PImage :=
  ⟨w, h, fun _ _ => col⟩

/-- `base.paste(im, (px, py))`: overwrite the rectangle of `base` starting at
`(px, py)` with the pixels of `im`; size is unchanged. -/
def PImage.paste (base im : PImage) (px py : ℕ) : PImage :=
  ⟨base.width, base.height, fun x y =>
    if px ≤ x ∧ x < px + im.width ∧ py ≤ y ∧ y < py + im.height
    then im.pix (x - px) (y - py)
    else base.pix x y⟩

/-- `im.crop((l, t, r, b))`: the `(r-l)×(b-t)` sub-image with origin `(l, t)`;
out-of-bounds reads yield black, as in PIL. -/
def PImage.crop (im : PImage) (l t r b : ℕ) : PImage :=
  ⟨r - l, b - t, fun x y =>
    if l + x < im.width ∧ t + y < im.height
    then im.pix (l + x) (t + y)
    else (0, 0, 0)⟩

/-- A numpy float32 tensor of logical shape `[n, c, h, w]`, values in `ℚ`. -/
structure Tensor4 where
  n : ℕ
  c : ℕ
  h : ℕ
  w : ℕ
  data : ℕ → ℕ → ℕ → ℕ → ℚ

/-- The inference session: `session.run` either returns an output tensor or
raises (modelled by `none`).  Lines 219 and 330 of `image_utils.py`. -/
def Session : Type := Tensor4 → Option Tensor4

/-- Channel extraction from an RGB pixel (numpy's last axis after
`np.array(img)`). -/
def channelVal (p : Pixel) (ch : ℕ) : ℕ :=
  match ch with
  | 0 => p.1
  | 1 => p.2.1
  | _ => p.2.2

/-- Lines 208-210 / 325-327: `np.array(img).astype(np.float32) / 255.0`,
`np.transpose(..., (2, 0, 1))` (HWC to CHW), `np.expand_dims(..., 0)`. -/
def imgToTensor (im : PImage) : Tensor4 :=
  ⟨1, 3, im.height, im.width, fun _ ch r col => (channelVal (im.pix col r) ch : ℚ) / 255⟩

/-- One byte of `np.clip(v * 255.0, 0, 255).astype(np.uint8)`: scale, clip,
truncate toward zero (floor, as the clipped value is non-negative). -/
def clipByte (v : ℚ) : ℕ :=
  Int.toNat ⌊min 255 (max 0 (v * 255))⌋

/-- Lines 229-234 / 333-337: `np.squeeze(..., 0)`, `np.transpose(..., (1, 2, 0))`
(CHW to HWC), `np.clip(... * 255.0, 0, 255).astype(np.uint8)`,
`Image.fromarray(...)`. -/
def tensorToImage (t : Tensor4) : PImage :=
  ⟨t.w, t.h, fun x y =>
    (clipByte (t.data 0 0 y x), clipByte (t.data 0 1 y x), clipByte (t.data 0 2 y x))⟩

/-- Lines 238-246: the chunked fallback conversion; row `r` lives at offset
`r % 500` of the chunk starting at row `500 * (r / 500)`, and the chunks are
concatenated along axis 0.  Pointwise it computes the same bytes as
`tensorToImage`. -/
def tensorToImageChunked (t : Tensor4) : PImage :=
  ⟨t.w, t.h, fun x y =>
    (clipByte (t.data 0 0 (500 * (y / 500) + y % 500) x),
     clipByte (t.data 0 1 (500 * (y / 500) + y % 500) x),
     clipByte (t.data 0 2 (500 * (y / 500) + y % 500) x))⟩

/-- Lines 191-201 and 314-322 (the identical padding blocks of the direct and
tiled paths): compute `pad = (scale_factor - (dim % scale_factor)) % scale_factor`
per dimension and, if either pad is nonzero, paste the image at the origin of a
black canvas of the padded size. -/
def padToMultiple (im : PImage) (s : ℕ) : PImage :=
  let padW := (s - im.width % s) % s
  let padH := (s - im.height % s) % s
  if 0 < padW ∨ 0 < padH
  then (newImage (im.width + padW) (im.height + padH) (0, 0, 0)).paste im 0 0
  else im

/-- Last index of a dot in a file name, if any (`str.rfind('.')` when found). -/
def lastDotIdx : List Char → Option ℕ
  | [] => none
  | c :: rest =>
    match lastDotIdx rest with
    | some j => some (j + 1)
    | none => if c = '.' then some 0 else none

/-- Final path component: everything after the last separator. -/
def baseName (p : List Char) : List Char :=
  (p.reverse.takeWhile (fun c => c ≠ '/')).reverse

/-- `PurePath.stem` on a file name: strip the last suffix, where a suffix is a
dot-segment whose dot is neither the first nor the last character. -/
def stemOf (name : List Char) : List Char :=
  match lastDotIdx name with
  | none => name
  | some i => if 0 < i ∧ i + 1 < name.length then name.take i else name

/-- `Path(model_path).stem` (lines 107). -/
def path_stem (p : List Char) : List Char :=
  stemOf (baseName p)

/-- Lines 105-114: `get_model_scale_factor` — lowercase the stem of the model
path; `'x2' in model_name` gives 2, else `'x4' in model_name` gives 4, else the
default 4. -/
def get_model_scale_factor (p : List Char) : ℕ :=
  let modelName := (path_stem p).map Char.toLower
  if ['x', '2'] <:+: modelName then 2
  else if ['x', '4'] <:+: modelName then 4
  else 4

/-- Line 162: `expected_memory_mb = (expected_output_width *
expected_output_height * 3 * 4) / (1024 * 1024)` (float division, exact here). -/
def expectedMemoryMB (w h s : ℕ) : ℚ :=
  ((w * s * (h * s) * 3 * 4 : ℕ) : ℚ) / (1024 * 1024)

/-- Lines 168-169: `use_tiling = expected_memory_mb > max_memory_mb` with
`max_memory_mb = 100`. -/
def useTiling (w h s : ℕ) : Bool :=
  decide ((100 : ℚ) < expectedMemoryMB w h s)

/-- Failure oracles of the direct path: the session plus the two numpy
conversion failure points of lines 233-249. -/
structure DirectEnv where
  session : Session
  convFails : Bool
  chunkFails : Bool

/-- The progress trace actually delivered: the reports `l` if a callback was
supplied, nothing otherwise (`if progress_callback:` guards). -/
def pTrace (cb : Bool) (l : List ℕ) : List ℕ :=
  if cb then l else []

/-- Lines 183-273: `upscale_image_direct`.  Pad to a multiple of the scale
factor, report 20 and 40, run inference (failure aborts with `None`), report
80, convert the output tensor back to bytes (whole-array first, row-chunked
fallback if that fails, `None` if both fail), crop to
`(original_width * s, original_height * s)` when the converted image is at
least that large, report 100 and return.  The result is the pair
(delivered progress values, returned image or `None`). -/
def upscale_image_direct (img : PImage) (env : DirectEnv) (s : ℕ) (cb : Bool) :
    List ℕ × Option PImage :=
  match env.session (imgToTensor (padToMultiple img s)) with
  | none => (pTrace cb [20, 40], none)
  | some oT =>
    match (if env.convFails = true
           then (if env.chunkFails = true then none else some (tensorToImageChunked oT))
           else some (tensorToImage oT) : Option PImage) with
    | none => (pTrace cb [20, 40, 80], none)
    | some up =>
      (pTrace cb [20, 40, 80, 100],
       some (if img.width * s ≤ up.width ∧ img.height * s ≤ up.height
             then up.crop 0 0 (img.width * s) (img.height * s)
             else up))

/-- Line 279: `tile_size = 512`. -/
def tileSize : ℕ := 512

/-- Line 280: `overlap = 64`. -/
def overlap : ℕ := 64

/-- Line 285: `tiles_x = (original_width + tile_size - 1) // tile_size`. -/
def tilesX (w : ℕ) : ℕ := (w + tileSize - 1) / tileSize

/-- Line 286: `tiles_y = (original_height + tile_size - 1) // tile_size`. -/
def tilesY (h : ℕ) : ℕ := (h + tileSize - 1) / tileSize

/-- Line 301/302: core-region origin `x_start = x * tile_size` (per axis). -/
def coreLo (x : ℕ) : ℕ := x * tileSize

/-- Line 303/304: core-region end `x_end = min(x_start + tile_size, extent)`
(per axis, `extent` the image width or height). -/
def coreHi (extent x : ℕ) : ℕ := min (coreLo x + tileSize) extent

/-- Line 307/308: extended origin `max(0, x_start - overlap)` (truncated
subtraction on `ℕ` is exactly this clamp). -/
def extLo (x : ℕ) : ℕ := coreLo x - overlap

/-- Line 309/310: extended end `min(extent, x_end + overlap)`. -/
def extHi (extent x : ℕ) : ℕ := min extent (coreHi extent x + overlap)

/-- Line 312: `img.crop((tile_x_start, tile_y_start, tile_x_end, tile_y_end))`. -/
def tileImage (img : PImage) (x y : ℕ) : PImage :=
  img.crop (extLo x) (extLo y) (extHi img.width x) (extHi img.height y)

/-- Lines 314-327: the padded tile converted to the inference input tensor. -/
def tileTensor (img : PImage) (s x y : ℕ) : Tensor4 :=
  imgToTensor (padToMultiple (tileImage img x y) s)

/-- Line 346/347: `crop_x_start = (x_start - tile_x_start) * scale_factor`
(per axis). -/
def cropXs (x s : ℕ) : ℕ := (coreLo x - extLo x) * s

/-- Line 348/349: `crop_x_end = crop_x_start + (output_x_end - output_x_start)`
(per axis). -/
def cropXe (extent x s : ℕ) : ℕ := cropXs x s + (coreHi extent x * s - coreLo x * s)

/-- Lines 333-351: the upscaled tile after post-processing, cropped back to the
core region only. -/
def contribImage (img : PImage) (s x y : ℕ) (oT : Tensor4) : PImage :=
  (tensorToImage oT).crop (cropXs x s) (cropXs y s) (cropXe img.width x s) (cropXe img.height y s)

/-- One iteration of the tile loop (lines 300-365), acting on the state
(output image, `tile_count`, delivered progress values).  A session failure
(`except` at line 356) leaves the state untouched (`continue` skips both the
counter increment and the progress report); a success pastes the cropped
contribution at `(x_start * s, y_start * s)`, increments `tile_count` and
reports `int(20 + (tile_count / total_tiles) * 80)`. -/
def tiledStep (img : PImage) (sess : Session) (s total : ℕ) (cb : Bool)
    (st : PImage × ℕ × List ℕ) (t : ℕ × ℕ) : PImage × ℕ × List ℕ :=
  match sess (tileTensor img s t.1 t.2) with
  | none => st
  | some oT =>
    (st.1.paste (contribImage img s t.1 t.2 oT) (coreLo t.1 * s) (coreLo t.2 * s),
     st.2.1 + 1,
     st.2.2 ++ pTrace cb [20 + 80 * (st.2.1 + 1) / total])

/-- Lines 298-299: the row-major tile enumeration
(`for y in range(tiles_y): for x in range(tiles_x)`). -/
def tileList (w h : ℕ) : List (ℕ × ℕ) :=
  (List.range (tilesY h)).flatMap (fun y => (List.range (tilesX w)).map (fun x => (x, y)))

/-- Lines 275-377: `upscale_image_tiled`.  Pre-allocate a black output of size
`(width * s, height * s)`, fold the tile loop over the row-major enumeration,
report 100, and return the output image (never `None` in the absence of an
exception outside the per-tile `try`). -/
def upscale_image_tiled (img : PImage) (sess : Session) (s : ℕ) (cb : Bool) :
    List ℕ × Option PImage :=
  let total := tilesX img.width * tilesY img.height
  let fin := (tileList img.width img.height).foldl
    (tiledStep img sess s total cb)
    (newImage (img.width * s) (img.height * s) (0, 0, 0), 0, ([] : List ℕ))
  (fin.2.2 ++ pTrace cb [100], some fin.1)

/-- Failure oracles of the whole invocation: model file existence (line 138),
session construction (lines 141-145), plus the direct-path oracles. -/
structure UpEnv where
  modelExists : Bool
  sessionLoads : Bool
  session : Session
  convFails : Bool
  chunkFails : Bool

/-- Lines 116-181: `upscale_image`.  A missing model file raises (caught by the
outer `except`, returning `None` with no progress delivered); a failed session
load returns `None`; otherwise the planner picks the tiled path iff the
expected memory exceeds 100 MB and dispatches. -/
def upscale_image (img : PImage) (modelPath : List Char) (env : UpEnv) (cb : Bool) :
    List ℕ × Option PImage :=
  if env.modelExists = false then ([], none)
  else if env.sessionLoads = false then ([], none)
  else if useTiling img.width img.height (get_model_scale_factor modelPath) = true
  then upscale_image_tiled img env.session (get_model_scale_factor modelPath) cb
  else upscale_image_direct img ⟨env.session, env.convFails, env.chunkFails⟩
    (get_model_scale_factor modelPath) cb

/-- A small 3×5 constant test image. -/
def im35 : PImage := ⟨3, 5, fun _ _ => (7, 8, 9)⟩

/-- A 600×600 constant test image (a 2×2 tile grid at tile size 512). -/
def img600sq : PImage := ⟨600, 600, fun _ _ => (10, 20, 30)⟩

/-- A 600×1 constant test image (a 2×1 tile grid at tile size 512). -/
def img600x1 : PImage := ⟨600, 1, fun _ _ => (10, 20, 30)⟩

/-- A concrete `x4` model path used to exercise the dispatcher. -/
def pathA : List Char := ['m', 'o', 'd', 'e', 'l', 'x', '4', '.', 'o', 'n', 'n', 'x']

/-- A concrete well-behaved model: doubles both spatial dimensions
(nearest-neighbour on the data). -/
def upTensor2 (t : Tensor4) : Tensor4 :=
  ⟨t.n, t.c, t.h * 2, t.w * 2, fun b ch r col => t.data b ch (r / 2) (col / 2)⟩

/-- A session that always succeeds, applying `upTensor2`. -/
def sessDouble : Session := fun t => some (upTensor2 t)

/-- An invocation environment with no failures at all. -/
def envA : UpEnv := ⟨true, true, sessDouble, false, false⟩

/-- A direct-path environment with no failures at all. -/
def denvA : DirectEnv := ⟨sessDouble, false, false⟩

/-- An environment whose model file is missing. -/
def envNoModel : UpEnv := ⟨false, true, sessDouble, false, false⟩

/-- A session failing exactly on the 152×152 input tile — on `img600sq` with
scale factor 2 that is precisely tile `(1, 1)` of the 2×2 grid. -/
def sessC4 : Session := fun t => if t.w = 152 ∧ t.h = 152 then none else some (upTensor2 t)

/-- A session failing exactly on inputs of width 576 — on `img600x1` with
scale factor 2 that is precisely tile `(0, 0)` of the 2×1 grid. -/
def sessC8 : Session := fun t => if t.w = 576 then none else some (upTensor2 t)

/-- The per-tile progress reports produced by the tile loop starting from
`tile_count = k`: one report `int(20 + (tile_count / total) * 80)` per
successful tile, none for failed tiles (which `continue` past the report). -/
def succTrace (img : PImage) (sess : Session) (s total : ℕ) :
    List (ℕ × ℕ) → ℕ → List ℕ
  | [], _ => []
  | t :: rest, k =>
    if (sess (tileTensor img s t.1 t.2)).isSome = true
    then (20 + 80 * (k + 1) / total) :: succTrace img sess s total rest (k + 1)
    else succTrace img sess s total rest k

/-- Padding leaves a dimension that is an exact multiple of the scale factor. -/
lemma pad_mod (d s : ℕ) (hs : 0 < s) : (d + (s - d % s) % s) % s = 0 := by
  rcases Nat.eq_zero_or_pos (d % s) with h0 | h0
  · simp [h0, Nat.sub_zero, Nat.mod_self]
  · have hlt : d % s < s := Nat.mod_lt _ hs
    have h1 : (s - d % s) % s = s - d % s := Nat.mod_eq_of_lt (by omega)
    rw [h1]
    have h2 := Nat.div_add_mod d s
    have h3 : s * (d / s + 1) = s * (d / s) + s := Nat.mul_succ s (d / s)
    have h4 : d + (s - d % s) = s * (d / s + 1) := by omega
    rw [h4]
    exact Nat.mul_mod_right s _

/-- The padded image's size is the original size plus the per-dimension pad. -/
lemma padToMultiple_size (im : PImage) (s : ℕ) :
    (padToMultiple im s).width = im.width + (s - im.width % s) % s
      ∧ (padToMultiple im s).height = im.height + (s - im.height % s) % s := by
  by_cases h : 0 < (s - im.width % s) % s ∨ 0 < (s - im.height % s) % s
  · simp [padToMultiple, h, PImage.paste, newImage]
  · push_neg at h
    simp [padToMultiple, h.1, h.2, Nat.le_zero.mp h.1, Nat.le_zero.mp h.2]

/-- C6: for every image and scale factor `s > 0`, the padding is
`pad = (s - dim % s) % s` per dimension: the padded image has size
`(width+pad_w, height+pad_h)`, both exact multiples of `s`, keeps the original
pixels at the top-left origin with a black border, and when both dimensions are
already multiples of `s` the padding is `(0, 0)` and the image is passed
through unchanged. -/
theorem claim_C6 (im : PImage) (s : ℕ) (hs : 0 < s) :
    ((padToMultiple im s).width = im.width + (s - im.width % s) % s
      ∧ (padToMultiple im s).height = im.height + (s - im.height % s) % s)
    ∧ ((padToMultiple im s).width % s = 0 ∧ (padToMultiple im s).height % s = 0)
    ∧ (∀ x y, x < im.width → y < im.height → (padToMultiple im s).pix x y = im.pix x y)
    ∧ (∀ x y, x < (padToMultiple im s).width → y < (padToMultiple im s).height →
        im.width ≤ x ∨ im.height ≤ y → (padToMultiple im s).pix x y = (0, 0, 0))
    ∧ (im.width % s = 0 → im.height % s = 0 →
        (s - im.width % s) % s = 0 ∧ (s - im.height % s) % s = 0 ∧ padToMultiple im s = im) := by
  have hsz := padToMultiple_size im s
  refine ⟨hsz, ⟨?_, ?_⟩, ?_, ?_, ?_⟩
  · rw [hsz.1]; exact pad_mod _ _ hs
  · rw [hsz.2]; exact pad_mod _ _ hs
  · intro x y hx hy
    by_cases h : 0 < (s - im.width % s) % s ∨ 0 < (s - im.height % s) % s
    · simp [padToMultiple, h, PImage.paste, newImage, hx, hy]
    · simp [padToMultiple, h]
  · intro x y hx hy hout
    by_cases h : 0 < (s - im.width % s) % s ∨ 0 < (s - im.height % s) % s
    · have : ¬ (0 ≤ x ∧ x < 0 + im.width ∧ 0 ≤ y ∧ y < 0 + im.height) := by omega
      simp only [padToMultiple, if_pos h, PImage.paste, newImage]
      rw [if_neg this]
    · push_neg at h
      rw [hsz.1] at hx
      rw [hsz.2] at hy
      have h1 : (s - im.width % s) % s = 0 := Nat.le_zero.mp h.1
      have h2 : (s - im.height % s) % s = 0 := Nat.le_zero.mp h.2
      omega
  · intro hw hh
    refine ⟨by simp [hw, Nat.mod_self], by simp [hh, Nat.mod_self], ?_⟩
    have h : ¬ (0 < (s - im.width % s) % s ∨ 0 < (s - im.height % s) % s) := by
      simp [hw, hh, Nat.mod_self]
    simp [padToMultiple, h]

/-- C6 witness: the 3×5 test image at scale factor 2 is padded to 4×6. -/
theorem claim_C6_w :
    (padToMultiple im35 2).width = 3 + (2 - 3 % 2) % 2
      ∧ (padToMultiple im35 2).height = 5 + (2 - 5 % 2) % 2 :=
  (claim_C6 im35 2 (by decide)).1

/-- C9 counterexample: the file name of the path `m.x2` contains the substring
`x2`, yet the scale factor computed by the code is 4, because matching is done
on the stem (`m`), with the extension excluded — refuting the claim as stated,
which matches against the file name. -/
theorem claim_C9_cex :
    ['x', '2'] <:+: baseName ['m', '.', 'x', '2']
      ∧ get_model_scale_factor ['m', '.', 'x', '2'] = 4 := by
  exact ⟨by decide, by decide⟩

/-- C9 (amended): the scale factor is derived from the lowercased stem of the
model path (final component, extension excluded): 2 if it contains `x2`, else
4 if it contains `x4`, else 4 by default; it is a pure function of the path. -/
theorem claim_C9_amended (p : List Char) :
    (['x', '2'] <:+: (path_stem p).map Char.toLower → get_model_scale_factor p = 2)
    ∧ (¬ (['x', '2'] <:+: (path_stem p).map Char.toLower) →
        ['x', '4'] <:+: (path_stem p).map Char.toLower → get_model_scale_factor p = 4)
    ∧ (¬ (['x', '2'] <:+: (path_stem p).map Char.toLower) →
        ¬ (['x', '4'] <:+: (path_stem p).map Char.toLower) → get_model_scale_factor p = 4) := by
  refine ⟨fun h2 => ?_, fun h2 h4 => ?_, fun h2 h4 => ?_⟩
  · simp [get_model_scale_factor, h2]
  · simp [get_model_scale_factor, h2, h4]
  · simp [get_model_scale_factor, h2, h4]

/-- C9 witness: a stem containing `x2` yields scale factor 2. -/
theorem claim_C9_w : get_model_scale_factor ['a', 'x', '2', '.', 'o'] = 2 :=
  (claim_C9_amended ['a', 'x', '2', '.', 'o']).1 (by decide)

/-- C10: scale-factor detection works on the lowercased stem only, and `x2`
takes precedence — any path whose stem contains both `x2` and `x4` (in any
letter case) yields 2. -/
theorem claim_C10 (p : List Char)
    (h2 : ['x', '2'] <:+: (path_stem p).map Char.toLower)
    (h4 : ['x', '4'] <:+: (path_stem p).map Char.toLower) :
    get_model_scale_factor p = 2 := by
  simp [get_model_scale_factor, h2]

/-- C10 witness: the path `X2x4.onnx` (note the upper-case `X`) yields 2. -/
theorem claim_C10_w :
    get_model_scale_factor ['X', '2', 'x', '4', '.', 'o', 'n', 'n', 'x'] = 2 :=
  claim_C10 ['X', '2', 'x', '4', '.', 'o', 'n', 'n', 'x'] (by decide) (by decide)

/-- C3: with the model present and the session loaded, `upscale_image` computes
expected memory as `(W*s * H*s * 3 * 4) / (1024*1024)` MB and dispatches to the
tiled path iff that exceeds 100 (equivalently, iff
`104857600 < W*s * H*s * 3 * 4`), and the decision is a pure function of
`(W, H, s)`. -/
theorem claim_C3 (img : PImage) (path : List Char) (env : UpEnv) (cb : Bool)
    (hm : env.modelExists = true) (hl : env.sessionLoads = true) :
    (upscale_image img path env cb =
      if useTiling img.width img.height (get_model_scale_factor path) = true
      then upscale_image_tiled img env.session (get_model_scale_factor path) cb
      else upscale_image_direct img ⟨env.session, env.convFails, env.chunkFails⟩
        (get_model_scale_factor path) cb)
    ∧ (∀ w h sf : ℕ, useTiling w h sf = true ↔
        (100 : ℚ) < ((w * sf * (h * sf) * 3 * 4 : ℕ) : ℚ) / (1024 * 1024))
    ∧ (∀ w h sf : ℕ, useTiling w h sf = true ↔ 104857600 < w * sf * (h * sf) * 3 * 4)
    ∧ (∀ im2 : PImage, im2.width = img.width → im2.height = img.height →
        useTiling im2.width im2.height (get_model_scale_factor path)
          = useTiling img.width img.height (get_model_scale_factor path)) := by
  refine ⟨?_, ?_, ?_, ?_⟩
  · simp [upscale_image, hm, hl]
  · intro w h sf
    simp [useTiling, expectedMemoryMB, decide_eq_true_iff]
  · intro w h sf
    simp only [useTiling, expectedMemoryMB, decide_eq_true_iff]
    rw [lt_div_iff₀ (by norm_num)]
    constructor
    · intro hq
      exact_mod_cast hq
    · intro hn
      exact_mod_cast hn
  · intro im2 e1 e2
    rw [e1, e2]

/-- C3 witness: for a 100×100 image at scale factor 4, the planner decision is
characterised by the integer inequality (Scenario A sizes). -/
theorem claim_C3_w :
    useTiling 100 100 4 = true ↔ 104857600 < 100 * 4 * (100 * 4) * 3 * 4 :=
  (claim_C3 im35 pathA envA true rfl rfl).2.2.1 100 100 4

/-- With a successful inference and a successful (possibly chunked) conversion,
the direct path returns the full trace and the crop-or-passthrough image. -/
lemma upscale_direct_eq (img : PImage) (env : DirectEnv) (s : ℕ) (cb : Bool) (oT : Tensor4)
    (hsess : env.session (imgToTensor (padToMultiple img s)) = some oT)
    (hconv : env.convFails = false ∨ env.chunkFails = false) :
    upscale_image_direct img env s cb =
      (pTrace cb [20, 40, 80, 100],
       some (if img.width * s ≤ (if env.convFails = true then tensorToImageChunked oT
                                 else tensorToImage oT).width
               ∧ img.height * s ≤ (if env.convFails = true then tensorToImageChunked oT
                                   else tensorToImage oT).height
             then (if env.convFails = true then tensorToImageChunked oT
                   else tensorToImage oT).crop 0 0 (img.width * s) (img.height * s)
             else (if env.convFails = true then tensorToImageChunked oT
                   else tensorToImage oT))) := by
  cases hcf : env.convFails
  · simp [upscale_image_direct, hsess, hcf]
  · rcases hconv with h | h
    · rw [h] at hcf
      cases hcf
    · simp [upscale_image_direct, hsess, hcf, h]

/-- The direct-path trace is one of the three prefixes of `[20, 40, 80, 100]`
cut at the failure points. -/
lemma direct_trace_cases (img : PImage) (env : DirectEnv) (s : ℕ) (cb : Bool) :
    (upscale_image_direct img env s cb).1 = pTrace cb [20, 40]
    ∨ (upscale_image_direct img env s cb).1 = pTrace cb [20, 40, 80]
    ∨ (upscale_image_direct img env s cb).1 = pTrace cb [20, 40, 80, 100] := by
  unfold upscale_image_direct
  split
  · exact Or.inl rfl
  · split
    · exact Or.inr (Or.inl rfl)
    · exact Or.inr (Or.inr rfl)

/-- If the direct path returns an image, the full trace was delivered. -/
lemma direct_trace_of_some (img : PImage) (env : DirectEnv) (s : ℕ) (cb : Bool)
    (h : (upscale_image_direct img env s cb).2.isSome = true) :
    (upscale_image_direct img env s cb).1 = pTrace cb [20, 40, 80, 100] := by
  revert h
  unfold upscale_image_direct
  split
  · intro h
    cases h
  · split
    · intro h
      cases h
    · intro _
      rfl

/-- C7: the whole invocation returns the failure sentinel (no image, and for
the first two cases no progress at all) when the model path does not exist,
when the session fails to load, when direct-path inference fails, and when the
direct-path numeric conversion and its row-chunked fallback both fail. -/
theorem claim_C7 (img : PImage) (path : List Char) (env : UpEnv) (cb : Bool) :
    (env.modelExists = false → upscale_image img path env cb = ([], none))
    ∧ (env.sessionLoads = false → upscale_image img path env cb = ([], none))
    ∧ (env.modelExists = true → env.sessionLoads = true →
        useTiling img.width img.height (get_model_scale_factor path) = false →
        env.session (imgToTensor (padToMultiple img (get_model_scale_factor path))) = none →
        (upscale_image img path env cb).2 = none)
    ∧ (∀ oT, env.modelExists = true → env.sessionLoads = true →
        useTiling img.width img.height (get_model_scale_factor path) = false →
        env.session (imgToTensor (padToMultiple img (get_model_scale_factor path))) = some oT →
        env.convFails = true → env.chunkFails = true →
        (upscale_image img path env cb).2 = none) := by
  refine ⟨?_, ?_, ?_, ?_⟩
  · intro h
    simp [upscale_image, h]
  · intro h
    cases hme : env.modelExists
    · simp [upscale_image, hme]
    · simp [upscale_image, hme, h]
  · intro hm hl ht hsess
    simp [upscale_image, hm, hl, ht, upscale_image_direct, hsess]
  · intro oT hm hl ht hsess hcf hch
    simp [upscale_image, hm, hl, ht, upscale_image_direct, hsess, hcf, hch]

/-- C7 witness: a missing model file yields the failure sentinel with no
progress delivered. -/
theorem claim_C7_w : upscale_image im35 pathA envNoModel true = ([], none) :=
  (claim_C7 im35 pathA envNoModel true).1 rfl

/-- C1: in the direct path, if inference succeeds (and the numeric conversion
path does not fail outright), the result is the converted image cropped to
`(W*s, H*s)` whenever it is at least that large in both dimensions and the
converted image unchanged otherwise; and if the session output's spatial
dimensions are the padded input dimensions times `s`, the returned image has
size exactly `(W*s, H*s)`. -/
theorem claim_C1 (img : PImage) (env : DirectEnv) (s : ℕ) (cb : Bool) (oT : Tensor4)
    (hs : s = 2 ∨ s = 4) (hW : 1 ≤ img.width) (hH : 1 ≤ img.height)
    (hsess : env.session (imgToTensor (padToMultiple img s)) = some oT)
    (hconv : env.convFails = false ∨ env.chunkFails = false) :
    ((upscale_image_direct img env s cb).2 =
      some (if img.width * s ≤ (if env.convFails = true then tensorToImageChunked oT
                                else tensorToImage oT).width
              ∧ img.height * s ≤ (if env.convFails = true then tensorToImageChunked oT
                                  else tensorToImage oT).height
            then (if env.convFails = true then tensorToImageChunked oT
                  else tensorToImage oT).crop 0 0 (img.width * s) (img.height * s)
            else (if env.convFails = true then tensorToImageChunked oT
                  else tensorToImage oT)))
    ∧ (oT.w = (padToMultiple img s).width * s → oT.h = (padToMultiple img s).height * s →
        ∃ up, (upscale_image_direct img env s cb).2 = some up
          ∧ up.width = img.width * s ∧ up.height = img.height * s) := by
  have heq := upscale_direct_eq img env s cb oT hsess hconv
  constructor
  · rw [heq]
  · intro hw hh
    have hcw : (if env.convFails = true then tensorToImageChunked oT
                else tensorToImage oT).width = oT.w := by
      cases env.convFails <;> rfl
    have hch2 : (if env.convFails = true then tensorToImageChunked oT
                else tensorToImage oT).height = oT.h := by
      cases env.convFails <;> rfl
    have hpw : img.width ≤ (padToMultiple img s).width := by
      rw [(padToMultiple_size img s).1]
      exact Nat.le_add_right _ _
    have hph : img.height ≤ (padToMultiple img s).height := by
      rw [(padToMultiple_size img s).2]
      exact Nat.le_add_right _ _
    have hbig : img.width * s ≤ (if env.convFails = true then tensorToImageChunked oT
                                 else tensorToImage oT).width
        ∧ img.height * s ≤ (if env.convFails = true then tensorToImageChunked oT
                            else tensorToImage oT).height := by
      rw [hcw, hch2, hw, hh]
      exact ⟨Nat.mul_le_mul_right s hpw, Nat.mul_le_mul_right s hph⟩
    refine ⟨_, by rw [heq, if_pos hbig], ?_, ?_⟩
    · simp [PImage.crop]
    · simp [PImage.crop]

/-- C1 witness: the 3×5 image at scale factor 2 (padded to 4×6, model doubling
the padded input to 8×12) comes back as exactly 6×10. -/
theorem claim_C1_w :
    ∃ up, (upscale_image_direct im35 denvA 2 true).2 = some up
      ∧ up.width = im35.width * 2 ∧ up.height = im35.height * 2 :=
  (claim_C1 im35 denvA 2 true (upTensor2 (imgToTensor (padToMultiple im35 2)))
    (Or.inl rfl) (by decide) (by decide) rfl (Or.inl rfl)).2 rfl rfl

/-- A grid index is valid along one axis iff its core origin is inside the
image. -/
lemma lt_tilesX_iff (w x : ℕ) : x < tilesX w ↔ x * 512 < w := by
  unfold tilesX tileSize
  rw [Nat.lt_iff_add_one_le, Nat.le_div_iff_mul_le (by norm_num)]
  omega

/-- The core interval never extends past the image. -/
lemma coreHi_le (extent x : ℕ) : coreHi extent x ≤ extent := min_le_right _ _

/-- For a valid grid index the core interval is non-degenerate. -/
lemma coreLo_le_coreHi (w x : ℕ) (hx : x < tilesX w) : coreLo x ≤ coreHi w x := by
  have h := (lt_tilesX_iff w x).mp hx
  simp only [coreLo, coreHi, tileSize, le_min_iff]
  omega

/-- 1D partition: every source coordinate lies in exactly one core interval. -/
lemma core_cover_unique (w px : ℕ) (hpx : px < w) :
    ∃! x, x < tilesX w ∧ coreLo x ≤ px ∧ px < coreHi w x := by
  have hdm := Nat.div_add_mod px 512
  have hm : px % 512 < 512 := Nat.mod_lt _ (by norm_num)
  refine ⟨px / 512, ⟨?_, ?_, ?_⟩, ?_⟩
  · rw [lt_tilesX_iff]
    omega
  · simp only [coreLo, tileSize]
    omega
  · simp only [coreHi, coreLo, tileSize, lt_min_iff]
    exact ⟨by omega, hpx⟩
  · intro y hy
    obtain ⟨hy1, hy2, hy3⟩ := hy
    simp only [coreHi, coreLo, tileSize, lt_min_iff] at hy2 hy3
    omega

/-- Membership in a scaled interval is membership of the quotient in the
unscaled interval. -/
lemma scaled_mem_iff (a b u s : ℕ) (hs : 0 < s) :
    (a * s ≤ u ∧ u < b * s) ↔ (a ≤ u / s ∧ u / s < b) := by
  rw [Nat.le_div_iff_mul_le hs, Nat.div_lt_iff_lt_mul hs]

/-- 1D partition of the output axis: every output coordinate lies in exactly
one scaled core interval. -/
lemma out_cover_unique (w u s : ℕ) (hs : 0 < s) (hu : u < w * s) :
    ∃! x, x < tilesX w ∧ coreLo x * s ≤ u ∧ u < coreHi w x * s := by
  have hq : u / s < w := (Nat.div_lt_iff_lt_mul hs).mpr hu
  obtain ⟨x0, hx0, hx0u⟩ := core_cover_unique w (u / s) hq
  obtain ⟨hx01, hx02, hx03⟩ := hx0
  refine ⟨x0, ⟨hx01, ?_⟩, ?_⟩
  · exact (scaled_mem_iff _ _ u s hs).mpr ⟨hx02, hx03⟩
  · intro y hy
    exact hx0u y ⟨hy.1, (scaled_mem_iff _ _ u s hs).mp hy.2⟩

/-- Membership in the row-major tile enumeration is validity of both grid
indices. -/
lemma mem_tileList (w h : ℕ) (t : ℕ × ℕ) :
    t ∈ tileList w h ↔ t.1 < tilesX w ∧ t.2 < tilesY h := by
  unfold tileList
  simp only [List.mem_flatMap, List.mem_map, List.mem_range]
  constructor
  · rintro ⟨y, hy, x, hx, rfl⟩
    exact ⟨hx, hy⟩
  · rintro ⟨h1, h2⟩
    exact ⟨t.2, h2, t.1, h1, rfl⟩

/-- Helper: length of the row-major enumeration of an `n × m` grid. -/
lemma length_flat_grid (m : ℕ) :
    ∀ n, ((List.range n).flatMap (fun y => (List.range m).map (fun x => (x, y)))).length
      = n * m := by
  intro n
  induction n with
  | zero => simp
  | succ k ih =>
    rw [List.range_succ]
    simp only [List.flatMap_append, List.length_append, ih]
    simp [Nat.succ_mul]

/-- The tile enumeration has exactly `total_tiles = tiles_x * tiles_y`
entries. -/
lemma length_tileList (w h : ℕ) : (tileList w h).length = tilesX w * tilesY h := by
  unfold tileList
  rw [length_flat_grid, Nat.mul_comm]

/-- C2: the core regions `[x*512, min((x+1)*512, W)) × [y*512, min((y+1)*512, H))`
partition the source image (every source pixel lies in exactly one core
region), the cropped region pasted for each tile has size exactly
`core_size * s`, and the scaled core regions partition the output image
(each output pixel is written by exactly one tile's core contribution). -/
theorem claim_C2 (w h s : ℕ) (hw : 1 ≤ w) (hh : 1 ≤ h) (hs : 0 < s) :
    (∀ px py, px < w → py < h →
      ∃! t : ℕ × ℕ, t.1 < tilesX w ∧ t.2 < tilesY h
        ∧ coreLo t.1 ≤ px ∧ px < coreHi w t.1
        ∧ coreLo t.2 ≤ py ∧ py < coreHi h t.2)
    ∧ (∀ x, x < tilesX w →
        cropXe w x s - cropXs x s = (coreHi w x - coreLo x) * s
          ∧ coreLo x * s + (cropXe w x s - cropXs x s) = coreHi w x * s)
    ∧ (∀ u v, u < w * s → v < h * s →
      ∃! t : ℕ × ℕ, t.1 < tilesX w ∧ t.2 < tilesY h
        ∧ coreLo t.1 * s ≤ u ∧ u < coreHi w t.1 * s
        ∧ coreLo t.2 * s ≤ v ∧ v < coreHi h t.2 * s) := by
  refine ⟨?_, ?_, ?_⟩
  · intro px py hpx hpy
    obtain ⟨x0, hx0, hx0u⟩ := core_cover_unique w px hpx
    obtain ⟨y0, hy0, hy0u⟩ := core_cover_unique h py hpy
    refine ⟨(x0, y0), ⟨hx0.1, hy0.1, hx0.2.1, hx0.2.2, hy0.2.1, hy0.2.2⟩, ?_⟩
    rintro ⟨x1, y1⟩ ⟨h1, h2, h3, h4, h5, h6⟩
    have ex : x1 = x0 := hx0u x1 ⟨h1, h3, h4⟩
    have ey : y1 = y0 := hy0u y1 ⟨h2, h5, h6⟩
    rw [ex, ey]
  · intro x hx
    have h1 : coreLo x ≤ coreHi w x := coreLo_le_coreHi w x hx
    have h2 : coreLo x * s ≤ coreHi w x * s := Nat.mul_le_mul_right s h1
    unfold cropXe
    constructor
    · rw [Nat.add_sub_cancel_left, Nat.sub_mul]
    · rw [Nat.add_sub_cancel_left]
      omega
  · intro u v hu hv
    obtain ⟨x0, hx0, hx0u⟩ := out_cover_unique w u s hs hu
    obtain ⟨y0, hy0, hy0u⟩ := out_cover_unique h v s hs hv
    refine ⟨(x0, y0), ⟨hx0.1, hy0.1, hx0.2.1, hx0.2.2, hy0.2.1, hy0.2.2⟩, ?_⟩
    rintro ⟨x1, y1⟩ ⟨h1, h2, h3, h4, h5, h6⟩
    have ex : x1 = x0 := hx0u x1 ⟨h1, h3, h4⟩
    have ey : y1 = y0 := hy0u y1 ⟨h2, h5, h6⟩
    rw [ex, ey]

/-- C2 witness: instantiation on a 700×600 source at scale factor 2. -/
theorem claim_C2_w :
    (∀ px py, px < 700 → py < 600 →
      ∃! t : ℕ × ℕ, t.1 < tilesX 700 ∧ t.2 < tilesY 600
        ∧ coreLo t.1 ≤ px ∧ px < coreHi 700 t.1
        ∧ coreLo t.2 ≤ py ∧ py < coreHi 600 t.2)
    ∧ (∀ x, x < tilesX 700 →
        cropXe 700 x 2 - cropXs x 2 = (coreHi 700 x - coreLo x) * 2
          ∧ coreLo x * 2 + (cropXe 700 x 2 - cropXs x 2) = coreHi 700 x * 2)
    ∧ (∀ u v, u < 700 * 2 → v < 600 * 2 →
      ∃! t : ℕ × ℕ, t.1 < tilesX 700 ∧ t.2 < tilesY 600
        ∧ coreLo t.1 * 2 ≤ u ∧ u < coreHi 700 t.1 * 2
        ∧ coreLo t.2 * 2 ≤ v ∧ v < coreHi 600 t.2 * 2) :=
  claim_C2 700 600 2 (by decide) (by decide) (by decide)

/-- The tile fold never changes the output image's dimensions. -/
lemma foldl_size (img : PImage) (sess : Session) (s total : ℕ) (cb : Bool) :
    ∀ (L : List (ℕ × ℕ)) (st : PImage × ℕ × List ℕ),
      ((L.foldl (tiledStep img sess s total cb) st).1).width = st.1.width
        ∧ ((L.foldl (tiledStep img sess s total cb) st).1).height = st.1.height := by
  intro L
  induction L with
  | nil => intro st; exact ⟨rfl, rfl⟩
  | cons t rest ih =>
    intro st
    rw [List.foldl_cons]
    refine ⟨((ih _).1).trans ?_, ((ih _).2).trans ?_⟩ <;>
      cases hsess : sess (tileTensor img s t.1 t.2) <;>
        simp [tiledStep, hsess, PImage.paste]

/-- The tile counter after the fold counts the successful tiles. -/
lemma foldl_count (img : PImage) (sess : Session) (s total : ℕ) (cb : Bool) :
    ∀ (L : List (ℕ × ℕ)) (st : PImage × ℕ × List ℕ),
      (L.foldl (tiledStep img sess s total cb) st).2.1
        = st.2.1 + L.countP (fun t => (sess (tileTensor img s t.1 t.2)).isSome) := by
  intro L
  induction L with
  | nil => intro st; simp
  | cons t rest ih =>
    intro st
    rw [List.foldl_cons, ih, List.countP_cons]
    cases hsess : sess (tileTensor img s t.1 t.2) <;> simp [tiledStep, hsess] <;> omega

/-- With a callback supplied, the fold appends exactly the per-success
reports. -/
lemma foldl_trace (img : PImage) (sess : Session) (s total : ℕ) :
    ∀ (L : List (ℕ × ℕ)) (st : PImage × ℕ × List ℕ),
      (L.foldl (tiledStep img sess s total true) st).2.2
        = st.2.2 ++ succTrace img sess s total L st.2.1 := by
  intro L
  induction L with
  | nil => intro st; simp [succTrace]
  | cons t rest ih =>
    intro st
    rw [List.foldl_cons, ih]
    cases hsess : sess (tileTensor img s t.1 t.2)
    · simp [tiledStep, hsess, succTrace]
    · simp [tiledStep, hsess, succTrace, pTrace]

/-- With no callback supplied, the fold delivers nothing. -/
lemma foldl_trace_nocb (img : PImage) (sess : Session) (s total : ℕ) :
    ∀ (L : List (ℕ × ℕ)) (st : PImage × ℕ × List ℕ),
      (L.foldl (tiledStep img sess s total false) st).2.2 = st.2.2 := by
  intro L
  induction L with
  | nil => intro st; rfl
  | cons t rest ih =>
    intro st
    rw [List.foldl_cons, ih]
    cases hsess : sess (tileTensor img s t.1 t.2) <;> simp [tiledStep, hsess, pTrace]

/-- Every per-success report is at least the first one possible. -/
lemma succTrace_lb (img : PImage) (sess : Session) (s total : ℕ) :
    ∀ (L : List (ℕ × ℕ)) (k v : ℕ), v ∈ succTrace img sess s total L k →
      20 + 80 * (k + 1) / total ≤ v := by
  intro L
  induction L with
  | nil => intro k v hv; simp [succTrace] at hv
  | cons t rest ih =>
    intro k v hv
    by_cases hok : (sess (tileTensor img s t.1 t.2)).isSome = true
    · rw [succTrace, if_pos hok] at hv
      rcases List.mem_cons.mp hv with rfl | hv2
      · exact le_refl _
      · have h1 := ih (k + 1) v hv2
        have h2 : 80 * (k + 1) / total ≤ 80 * (k + 1 + 1) / total :=
          Nat.div_le_div_right (Nat.mul_le_mul_left 80 (by omega))
        omega
    · rw [succTrace, if_neg hok] at hv
      exact ih k v hv

/-- Every per-success report is bounded by the report after the last tile. -/
lemma succTrace_ub (img : PImage) (sess : Session) (s total : ℕ) :
    ∀ (L : List (ℕ × ℕ)) (k v : ℕ), v ∈ succTrace img sess s total L k →
      v ≤ 20 + 80 * (k + L.length) / total := by
  intro L
  induction L with
  | nil => intro k v hv; simp [succTrace] at hv
  | cons t rest ih =>
    intro k v hv
    have hmono : ∀ a b : ℕ, a ≤ b → 80 * a / total ≤ 80 * b / total := by
      intro a b hab
      exact Nat.div_le_div_right (Nat.mul_le_mul_left 80 hab)
    by_cases hok : (sess (tileTensor img s t.1 t.2)).isSome = true
    · rw [succTrace, if_pos hok] at hv
      rcases List.mem_cons.mp hv with rfl | hv2
      · have := hmono (k + 1) (k + (t :: rest).length)
          (by simp only [List.length_cons]; omega)
        omega
      · have h1 := ih (k + 1) v hv2
        have := hmono (k + 1 + rest.length) (k + (t :: rest).length)
          (by simp only [List.length_cons]; omega)
        omega
    · rw [succTrace, if_neg hok] at hv
      have h1 := ih k v hv
      have := hmono (k + rest.length) (k + (t :: rest).length)
        (by simp only [List.length_cons]; omega)
      omega

/-- The per-success reports are non-decreasing. -/
lemma succTrace_pairwise (img : PImage) (sess : Session) (s total : ℕ) :
    ∀ (L : List (ℕ × ℕ)) (k : ℕ),
      List.Pairwise (· ≤ ·) (succTrace img sess s total L k) := by
  intro L
  induction L with
  | nil => intro k; simp [succTrace]
  | cons t rest ih =>
    intro k
    by_cases hok : (sess (tileTensor img s t.1 t.2)).isSome = true
    · rw [succTrace, if_pos hok]
      refine List.pairwise_cons.mpr ⟨?_, ih (k + 1)⟩
      intro v hv
      have h1 := succTrace_lb img sess s total rest (k + 1) v hv
      have h2 : 80 * (k + 1) / total ≤ 80 * (k + 1 + 1) / total :=
        Nat.div_le_div_right (Nat.mul_le_mul_left 80 (by omega))
      omega
    · rw [succTrace, if_neg hok]
      exact ih k

/-- Closed form of the per-success reports: the `i`-th successful tile (from a
counter base of `k`) reports `20 + 80*(k+i+1)/total`. -/
lemma succTrace_eq_map (img : PImage) (sess : Session) (s total : ℕ) :
    ∀ (L : List (ℕ × ℕ)) (k : ℕ),
      succTrace img sess s total L k =
        (List.range (L.countP (fun t => (sess (tileTensor img s t.1 t.2)).isSome))).map
          (fun i => 20 + 80 * (k + i + 1) / total) := by
  intro L
  induction L with
  | nil => intro k; simp [succTrace]
  | cons t rest ih =>
    intro k
    by_cases hok : (sess (tileTensor img s t.1 t.2)).isSome = true
    · rw [succTrace, if_pos hok, ih, List.countP_cons]
      simp only [hok, if_pos]
      rw [List.range_succ_eq_map, List.map_cons, List.map_map]
      have hfun : ((fun i => 20 + 80 * (k + i + 1) / total) ∘ Nat.succ)
          = (fun i => 20 + 80 * (k + 1 + i + 1) / total) := by
        funext i
        simp only [Function.comp_apply, Nat.succ_eq_add_one]
        have h : k + (i + 1) + 1 = k + 1 + i + 1 := by omega
        rw [h]
      rw [hfun]
    · rw [succTrace, if_neg hok, ih, List.countP_cons]
      simp [hok]

/-- C8 (amended): in the tiled upscaler the callback is invoked once per
*successfully* processed tile — the `k`-th success (1-based) reports
`int(20 + (k / total_tiles) * 80)` where `total_tiles = tiles_x * tiles_y` —
followed by the final report 100; failed tiles are skipped without a report. -/
theorem claim_C8_amended (img : PImage) (sess : Session) (s : ℕ) :
    (upscale_image_tiled img sess s true).1 =
      (List.range ((tileList img.width img.height).countP
          (fun t => (sess (tileTensor img s t.1 t.2)).isSome))).map
        (fun i => 20 + 80 * (i + 1) / (tilesX img.width * tilesY img.height)) ++ [100] := by
  simp only [upscale_image_tiled]
  rw [foldl_trace, succTrace_eq_map]
  simp [pTrace]

/-- C8 counterexample: on the 600×1 image (a 2-tile grid) with the first tile
failing, only one per-tile report is delivered (then the final 100), not one
per tile as the claim as stated requires — the claimed trace would be
`[60, 100, 100]`. -/
theorem claim_C8_cex :
    tilesX img600x1.width * tilesY img600x1.height = 2
      ∧ (upscale_image_tiled img600x1 sessC8 2 true).1 = [60, 100]
      ∧ ([60, 100] : List ℕ) ≠
          (List.range 2).map (fun i => 20 + 80 * (i + 1) / 2) ++ [100] := by
  refine ⟨by decide, by decide, by decide⟩

/-- The tiled trace is the per-success reports followed by 100 (callback
supplied). -/
lemma tiled_trace_true (img : PImage) (sess : Session) (s : ℕ) :
    (upscale_image_tiled img sess s true).1 =
      succTrace img sess s (tilesX img.width * tilesY img.height)
        (tileList img.width img.height) 0 ++ [100] := by
  simp only [upscale_image_tiled]
  rw [foldl_trace]
  simp [pTrace]

/-- With no callback the tiled path delivers nothing. -/
lemma tiled_trace_false (img : PImage) (sess : Session) (s : ℕ) :
    (upscale_image_tiled img sess s false).1 = [] := by
  simp only [upscale_image_tiled]
  rw [foldl_trace_nocb]
  simp [pTrace]

/-- Every per-success report of a full run is at most 100. -/
lemma succTrace_le_100 (img : PImage) (sess : Session) (s : ℕ) (v : ℕ)
    (hv : v ∈ succTrace img sess s (tilesX img.width * tilesY img.height)
      (tileList img.width img.height) 0) : v ≤ 100 := by
  have hub := succTrace_ub img sess s (tilesX img.width * tilesY img.height)
    (tileList img.width img.height) 0 v hv
  rw [length_tileList] at hub
  rw [Nat.zero_add] at hub
  rcases Nat.eq_zero_or_pos (tilesX img.width * tilesY img.height) with h0 | h0
  · have hlen : (tileList img.width img.height).length = 0 := by
      rw [length_tileList, h0]
    rw [List.length_eq_zero.mp hlen] at hv
    simp [succTrace] at hv
  · have : 80 * (tilesX img.width * tilesY img.height)
        / (tilesX img.width * tilesY img.height) = 80 :=
      Nat.mul_div_cancel 80 h0
    omega

/-- Monotonicity and final value of the tiled trace, for any callback flag. -/
lemma tiled_progress_ok (img : PImage) (sess : Session) (s : ℕ) (cb : Bool) :
    List.Pairwise (· ≤ ·) (upscale_image_tiled img sess s cb).1
      ∧ (upscale_image_tiled img sess s true).1.getLast? = some 100 := by
  constructor
  · cases cb
    · rw [tiled_trace_false]
      simp
    · rw [tiled_trace_true]
      rw [List.pairwise_append]
      refine ⟨succTrace_pairwise img sess s _ _ 0, by simp, ?_⟩
      intro a ha b hb
      rw [List.mem_singleton.mp hb]
      exact succTrace_le_100 img sess s a ha
  · rw [tiled_trace_true]
    simp [List.getLast?_concat]

/-- Monotonicity and final value of the direct trace. -/
lemma direct_progress_ok (img : PImage) (de : DirectEnv) (s : ℕ) (cb : Bool) :
    List.Pairwise (· ≤ ·) (upscale_image_direct img de s cb).1
      ∧ ((upscale_image_direct img de s true).2.isSome = true →
          (upscale_image_direct img de s true).1.getLast? = some 100) := by
  constructor
  · rcases direct_trace_cases img de s cb with h | h | h <;> rw [h] <;> cases cb <;> decide
  · intro h
    rw [direct_trace_of_some img de s true h]
    decide

/-- C5: within one upscale invocation — direct, tiled, or the dispatching
`upscale_image` — the delivered progress values are non-decreasing, and
whenever a non-failure (non-`None`) outcome is returned with a callback
supplied, the last delivered value is 100. -/
theorem claim_C5 (img : PImage) (denv : DirectEnv) (sess : Session) (path : List Char)
    (env : UpEnv) (s : ℕ) (cb : Bool) :
    (List.Pairwise (· ≤ ·) (upscale_image_direct img denv s cb).1
      ∧ ((upscale_image_direct img denv s true).2.isSome = true →
          (upscale_image_direct img denv s true).1.getLast? = some 100))
    ∧ (List.Pairwise (· ≤ ·) (upscale_image_tiled img sess s cb).1
      ∧ ((upscale_image_tiled img sess s true).2.isSome = true →
          (upscale_image_tiled img sess s true).1.getLast? = some 100))
    ∧ (List.Pairwise (· ≤ ·) (upscale_image img path env cb).1
      ∧ ((upscale_image img path env true).2.isSome = true →
          (upscale_image img path env true).1.getLast? = some 100)) := by
  refine ⟨direct_progress_ok img denv s cb,
    ⟨(tiled_progress_ok img sess s cb).1,
      fun _ => (tiled_progress_ok img sess s cb).2⟩, ?_, ?_⟩
  · cases hme : env.modelExists
    · simp [upscale_image, hme]
    · cases hsl : env.sessionLoads
      · simp [upscale_image, hme, hsl]
      · by_cases hut : useTiling img.width img.height (get_model_scale_factor path) = true
        · simp only [upscale_image, hme, hsl, hut]
          simp only [Bool.true_eq_false, if_false, if_true]
          exact (tiled_progress_ok img env.session (get_model_scale_factor path) cb).1
        · simp only [upscale_image, hme, hsl, if_neg hut]
          simp only [Bool.true_eq_false, if_false]
          exact (direct_progress_ok img
            ⟨env.session, env.convFails, env.chunkFails⟩ (get_model_scale_factor path) cb).1
  · intro h
    cases hme : env.modelExists
    · rw [upscale_image] at h ⊢
      simp [hme] at h
    · cases hsl : env.sessionLoads
      · rw [upscale_image] at h ⊢
        simp [hme, hsl] at h
      · by_cases hut : useTiling img.width img.height (get_model_scale_factor path) = true
        · simp only [upscale_image, hme, hsl, hut]
          simp only [Bool.true_eq_false, if_false, if_true]
          exact (tiled_progress_ok img env.session (get_model_scale_factor path) true).2
        · simp only [upscale_image, hme, hsl, if_neg hut] at h ⊢
          simp only [Bool.true_eq_false, if_false] at h ⊢
          exact (direct_progress_ok img
            ⟨env.session, env.convFails, env.chunkFails⟩ (get_model_scale_factor path) true).2 h

/-- C5 witness: on a fully successful direct run the last delivered progress
value is 100. -/
theorem claim_C5_w :
    (upscale_image_direct im35 denvA 2 true).1.getLast? = some 100 :=
  ((claim_C5 im35 denvA sessDouble pathA envA 2 true).1).2 (by decide)

/-- The cropped tile contribution is exactly `core_size * s` wide. -/
lemma contribImage_width (img : PImage) (s x y : ℕ) (oT : Tensor4) :
    (contribImage img s x y oT).width = cropXe img.width x s - cropXs x s := rfl

/-- The cropped tile contribution is exactly `core_size * s` tall. -/
lemma contribImage_height (img : PImage) (s x y : ℕ) (oT : Tensor4) :
    (contribImage img s x y oT).height = cropXe img.height y s - cropXs y s := rfl

/-- The pasted rectangle of a valid tile ends exactly at the scaled core end. -/
lemma cropXe_sub (extent x s : ℕ) (hx : x < tilesX extent) :
    coreLo x * s + (cropXe extent x s - cropXs x s) = coreHi extent x * s := by
  have h1 : coreLo x ≤ coreHi extent x := coreLo_le_coreHi extent x hx
  have h2 : coreLo x * s ≤ coreHi extent x * s := Nat.mul_le_mul_right s h1
  unfold cropXe
  rw [Nat.add_sub_cancel_left]
  omega

/-- The rectangle a valid tile pastes into is exactly its scaled core region. -/
lemma cover_to_contrib (img : PImage) (s x y : ℕ) (oT : Tensor4)
    (hx : x < tilesX img.width) (hy : y < tilesY img.height) (u v : ℕ) :
    (coreLo x * s ≤ u ∧ u < coreHi img.width x * s
      ∧ coreLo y * s ≤ v ∧ v < coreHi img.height y * s)
    ↔ (coreLo x * s ≤ u ∧ u < coreLo x * s + (contribImage img s x y oT).width
      ∧ coreLo y * s ≤ v ∧ v < coreLo y * s + (contribImage img s x y oT).height) := by
  have h1 := cropXe_sub img.width x s hx
  have h2 := cropXe_sub img.height y s hy
  rw [contribImage_width, contribImage_height, h1, h2]

/-- Two valid tiles whose scaled core regions share an output pixel are the
same tile. -/
lemma cover_eq (img : PImage) (s : ℕ) (hs : 0 < s) (u v : ℕ)
    (x y : ℕ) (hx : x < tilesX img.width) (hy : y < tilesY img.height)
    (hxu1 : coreLo x * s ≤ u) (hxu2 : u < coreHi img.width x * s)
    (hyv1 : coreLo y * s ≤ v) (hyv2 : v < coreHi img.height y * s)
    (t : ℕ × ℕ) (ht1 : t.1 < tilesX img.width) (ht2 : t.2 < tilesY img.height)
    (htu1 : coreLo t.1 * s ≤ u) (htu2 : u < coreHi img.width t.1 * s)
    (htv1 : coreLo t.2 * s ≤ v) (htv2 : v < coreHi img.height t.2 * s) :
    t = (x, y) := by
  have hu : u < img.width * s :=
    lt_of_lt_of_le hxu2 (Nat.mul_le_mul_right s (coreHi_le _ _))
  have hv : v < img.height * s :=
    lt_of_lt_of_le hyv2 (Nat.mul_le_mul_right s (coreHi_le _ _))
  obtain ⟨x0, _, hxu0⟩ := out_cover_unique img.width u s hs hu
  obtain ⟨y0, _, hyu0⟩ := out_cover_unique img.height v s hs hv
  have e1 : x = x0 := hxu0 x ⟨hx, hxu1, hxu2⟩
  have e2 : t.1 = x0 := hxu0 t.1 ⟨ht1, htu1, htu2⟩
  have e3 : y = y0 := hyu0 y ⟨hy, hyv1, hyv2⟩
  have e4 : t.2 = y0 := hyu0 t.2 ⟨ht2, htv1, htv2⟩
  have hfst : t.1 = x := e2.trans e1.symm
  have hsnd : t.2 = y := e4.trans e3.symm
  exact Prod.ext hfst hsnd

/-- If every successful covering tile of `L` would write the value already at
pixel `(u, v)`, the tile fold leaves that pixel unchanged. -/
lemma foldl_pix_const (img : PImage) (sess : Session) (s total : ℕ) (cb : Bool)
    (u v : ℕ) (p0 : Pixel) :
    ∀ (L : List (ℕ × ℕ)) (st : PImage × ℕ × List ℕ), st.1.pix u v = p0 →
      (∀ t ∈ L, ∀ oT, sess (tileTensor img s t.1 t.2) = some oT →
        (coreLo t.1 * s ≤ u ∧ u < coreLo t.1 * s + (contribImage img s t.1 t.2 oT).width
          ∧ coreLo t.2 * s ≤ v ∧ v < coreLo t.2 * s + (contribImage img s t.1 t.2 oT).height) →
        (contribImage img s t.1 t.2 oT).pix (u - coreLo t.1 * s) (v - coreLo t.2 * s) = p0) →
      ((L.foldl (tiledStep img sess s total cb) st).1).pix u v = p0 := by
  intro L
  induction L with
  | nil => intro st h _; exact h
  | cons t rest ih =>
    intro st h hall
    rw [List.foldl_cons]
    refine ih _ ?_ (fun t' ht' => hall t' (List.mem_cons_of_mem _ ht'))
    cases hsess : sess (tileTensor img s t.1 t.2) with
    | none => simpa [tiledStep, hsess] using h
    | some oT =>
      have hstep : tiledStep img sess s total cb st t
          = (st.1.paste (contribImage img s t.1 t.2 oT) (coreLo t.1 * s) (coreLo t.2 * s),
             st.2.1 + 1, st.2.2 ++ pTrace cb [20 + 80 * (st.2.1 + 1) / total]) := by
        simp [tiledStep, hsess]
      rw [hstep]
      by_cases hcov : coreLo t.1 * s ≤ u
          ∧ u < coreLo t.1 * s + (contribImage img s t.1 t.2 oT).width
          ∧ coreLo t.2 * s ≤ v
          ∧ v < coreLo t.2 * s + (contribImage img s t.1 t.2 oT).height
      · show (st.1.paste (contribImage img s t.1 t.2 oT)
          (coreLo t.1 * s) (coreLo t.2 * s)).pix u v = p0
        simp only [PImage.paste]
        rw [if_pos hcov]
        exact hall t (List.mem_cons_self t rest) oT hsess hcov
      · show (st.1.paste (contribImage img s t.1 t.2 oT)
          (coreLo t.1 * s) (coreLo t.2 * s)).pix u v = p0
        simp only [PImage.paste]
        rw [if_neg hcov]
        exact h

/-- A successful tile whose paste rectangle contains `(u, v)` — and which is
the only such tile in `L` — determines the folded pixel value. -/
lemma foldl_pix_contrib (img : PImage) (sess : Session) (s total : ℕ) (cb : Bool)
    (u v : ℕ) :
    ∀ (L : List (ℕ × ℕ)) (st : PImage × ℕ × List ℕ) (t : ℕ × ℕ) (oT : Tensor4),
      t ∈ L →
      sess (tileTensor img s t.1 t.2) = some oT →
      (coreLo t.1 * s ≤ u ∧ u < coreLo t.1 * s + (contribImage img s t.1 t.2 oT).width
        ∧ coreLo t.2 * s ≤ v ∧ v < coreLo t.2 * s + (contribImage img s t.1 t.2 oT).height) →
      (∀ t' ∈ L, ∀ oT', sess (tileTensor img s t'.1 t'.2) = some oT' →
        (coreLo t'.1 * s ≤ u ∧ u < coreLo t'.1 * s + (contribImage img s t'.1 t'.2 oT').width
          ∧ coreLo t'.2 * s ≤ v
          ∧ v < coreLo t'.2 * s + (contribImage img s t'.1 t'.2 oT').height) →
        t' = t) →
      ((L.foldl (tiledStep img sess s total cb) st).1).pix u v
        = (contribImage img s t.1 t.2 oT).pix (u - coreLo t.1 * s) (v - coreLo t.2 * s) := by
  intro L
  induction L with
  | nil => intro st t oT ht; exact absurd ht (List.not_mem_nil t)
  | cons a rest ih =>
    intro st t oT ht hsess hcov huniq
    rw [List.foldl_cons]
    by_cases hcase : ∃ oTa, sess (tileTensor img s a.1 a.2) = some oTa
        ∧ (coreLo a.1 * s ≤ u ∧ u < coreLo a.1 * s + (contribImage img s a.1 a.2 oTa).width
          ∧ coreLo a.2 * s ≤ v
          ∧ v < coreLo a.2 * s + (contribImage img s a.1 a.2 oTa).height)
    · obtain ⟨oTa, hsa, hcova⟩ := hcase
      have hat : a = t := huniq a (List.mem_cons_self a rest) oTa hsa hcova
      subst hat
      have hoeq : oTa = oT := Option.some.inj (hsa.symm.trans hsess)
      subst hoeq
      refine foldl_pix_const img sess s total cb u v _ rest
        (tiledStep img sess s total cb st a) ?_ ?_
      · have hstep : tiledStep img sess s total cb st a
            = (st.1.paste (contribImage img s a.1 a.2 oTa) (coreLo a.1 * s) (coreLo a.2 * s),
               st.2.1 + 1, st.2.2 ++ pTrace cb [20 + 80 * (st.2.1 + 1) / total]) := by
          simp [tiledStep, hsa]
        rw [hstep]
        show (st.1.paste (contribImage img s a.1 a.2 oTa)
          (coreLo a.1 * s) (coreLo a.2 * s)).pix u v = _
        simp only [PImage.paste]
        rw [if_pos hcova]
      · intro t' ht' oT' hs' hcov'
        have het : t' = a := huniq t' (List.mem_cons_of_mem a ht') oT' hs' hcov'
        subst het
        have hoeq' : oT' = oTa := Option.some.inj (hs'.symm.trans hsa)
        subst hoeq'
        rfl
    · have hta : t ≠ a := by
        rintro rfl
        exact hcase ⟨oT, hsess, hcov⟩
      have htr : t ∈ rest := by
        rcases List.mem_cons.mp ht with h | h
        · exact absurd h hta
        · exact h
      exact ih _ t oT htr hsess hcov (fun t' ht' => huniq t' (List.mem_cons_of_mem a ht'))

/-- C4: in the tiled upscaler, per-tile inference failures do not abort the
invocation: the returned outcome is non-`None`, the image is the pre-allocated
output of size exactly `(W*s, H*s)`, final progress 100 is reported, the
scaled core region of every failed tile is left black `(0,0,0)`, and the
scaled core region of every successful tile holds exactly that tile's cropped
core contribution (in particular a 2×2 grid with one failing tile yields a
full-sized image with three valid quadrants and one unset quadrant). -/
theorem claim_C4 (img : PImage) (sess : Session) (s : ℕ)
    (hW : 1 ≤ img.width) (hH : 1 ≤ img.height) (hs : 0 < s) :
    ∃ out, (upscale_image_tiled img sess s true).2 = some out
      ∧ out.width = img.width * s ∧ out.height = img.height * s
      ∧ (upscale_image_tiled img sess s true).1.getLast? = some 100
      ∧ (∀ x y u v, x < tilesX img.width → y < tilesY img.height →
          sess (tileTensor img s x y) = none →
          coreLo x * s ≤ u → u < coreHi img.width x * s →
          coreLo y * s ≤ v → v < coreHi img.height y * s →
          out.pix u v = (0, 0, 0))
      ∧ (∀ x y oT u v, x < tilesX img.width → y < tilesY img.height →
          sess (tileTensor img s x y) = some oT →
          coreLo x * s ≤ u → u < coreHi img.width x * s →
          coreLo y * s ≤ v → v < coreHi img.height y * s →
          out.pix u v
            = (contribImage img s x y oT).pix (u - coreLo x * s) (v - coreLo y * s)) := by
  refine ⟨((tileList img.width img.height).foldl
      (tiledStep img sess s (tilesX img.width * tilesY img.height) true)
      (newImage (img.width * s) (img.height * s) (0, 0, 0), 0, ([] : List ℕ))).1,
    rfl, ?_, ?_, (tiled_progress_ok img sess s true).2, ?_, ?_⟩
  · exact (foldl_size img sess s (tilesX img.width * tilesY img.height) true
      (tileList img.width img.height)
      (newImage (img.width * s) (img.height * s) (0, 0, 0), 0, ([] : List ℕ))).1
  · exact (foldl_size img sess s (tilesX img.width * tilesY img.height) true
      (tileList img.width img.height)
      (newImage (img.width * s) (img.height * s) (0, 0, 0), 0, ([] : List ℕ))).2
  · intro x y u v hx hy hfail hu1 hu2 hv1 hv2
    refine foldl_pix_const img sess s (tilesX img.width * tilesY img.height) true u v
      (0, 0, 0) (tileList img.width img.height) _ rfl ?_
    intro t ht oT' hs' hcov'
    exfalso
    have ht' := (mem_tileList img.width img.height t).mp ht
    have hcovc := (cover_to_contrib img s t.1 t.2 oT' ht'.1 ht'.2 u v).mpr hcov'
    have heq := cover_eq img s hs u v x y hx hy hu1 hu2 hv1 hv2 t ht'.1 ht'.2
      hcovc.1 hcovc.2.1 hcovc.2.2.1 hcovc.2.2.2
    rw [heq] at hs'
    have hcontra : (none : Option Tensor4) = some oT' := by
      rw [← hfail]
      exact hs'
    exact Option.noConfusion hcontra
  · intro x y oT u v hx hy hsucc hu1 hu2 hv1 hv2
    have hcontrib := (cover_to_contrib img s x y oT hx hy u v).mp ⟨hu1, hu2, hv1, hv2⟩
    refine foldl_pix_contrib img sess s (tilesX img.width * tilesY img.height) true u v
      (tileList img.width img.height) _ (x, y) oT ?_ hsucc hcontrib ?_
    · exact (mem_tileList img.width img.height (x, y)).mpr ⟨hx, hy⟩
    · intro t' ht' oT' hs' hcov'
      have ht'' := (mem_tileList img.width img.height t').mp ht'
      have hcovc := (cover_to_contrib img s t'.1 t'.2 oT' ht''.1 ht''.2 u v).mpr hcov'
      exact cover_eq img s hs u v x y hx hy hu1 hu2 hv1 hv2 t' ht''.1 ht''.2
        hcovc.1 hcovc.2.1 hcovc.2.2.1 hcovc.2.2.2

/-- C4 witness: the 600×600 image at scale factor 2 is a 2×2 tile grid, and
`sessC4` fails exactly on tile `(1, 1)`. -/
theorem claim_C4_w :
    ∃ out, (upscale_image_tiled img600sq sessC4 2 true).2 = some out
      ∧ out.width = img600sq.width * 2 ∧ out.height = img600sq.height * 2
      ∧ (upscale_image_tiled img600sq sessC4 2 true).1.getLast? = some 100
      ∧ (∀ x y u v, x < tilesX img600sq.width → y < tilesY img600sq.height →
          sessC4 (tileTensor img600sq 2 x y) = none →
          coreLo x * 2 ≤ u → u < coreHi img600sq.width x * 2 →
          coreLo y * 2 ≤ v → v < coreHi img600sq.height y * 2 →
          out.pix u v = (0, 0, 0))
      ∧ (∀ x y oT u v, x < tilesX img600sq.width → y < tilesY img600sq.height →
          sessC4 (tileTensor img600sq 2 x y) = some oT →
          coreLo x * 2 ≤ u → u < coreHi img600sq.width x * 2 →
          coreLo y * 2 ≤ v → v < coreHi img600sq.height y * 2 →
          out.pix u v
            = (contribImage img600sq 2 x y oT).pix (u - coreLo x * 2) (v - coreLo y * 2)) :=
  claim_C4 img600sq sessC4 2 (by decide) (by decide) (by decide)
